import Mathlib

/-!
Verification of the ONNX function-inlining/expansion engine
(`onnx/defs/function.cc` and the axes adapter
`onnx/version_converter/adapters/axes_input_to_attribute.h`).

The protobuf data model is embedded shallowly: repeated fields become
lists, `optional` fields become `Option`, 64-bit proto integers become
`Int` with an explicit 32-bit truncation where the C++ performs a
`static_cast<int>`.  `std::unordered_map` with `m[k] = v` assignment is
modelled as an association list where a new binding is appended and
lookup takes the *last* matching binding (observationally identical to
overwrite-on-insert).  C++ exceptions (`ONNX_THROW`, `ONNX_ASSERTM`)
become `Except String`.  In-place mutation of the destination graph
becomes returning an updated copy.
-/

/-- A tensor constant: name, shape, explicit int64 data and raw bytes
(each byte a `Nat` below 256).  This serves both for graph initializers
and for the `value` tensor of a `Constant` node in the adapter path. -/
structure TensorProto where
  name : String
  dims : List Nat
  int64s : List Int
  raw : List Nat
deriving DecidableEq, Repr

/-- The payload of an attribute: a literal typed value.  Only the shape
matters for the expansion engine (it copies payloads verbatim), so a
representative set of ONNX attribute payload kinds is modelled. -/
inductive AttrValue where
  | intVal (i : Int)
  | intsVal (l : List Int)
  | strVal (s : String)
  | floatsTag (n : Nat)
  | tensorVal (t : TensorProto)
  | noneVal
deriving DecidableEq, Repr

/-- `AttributeProto`: a named attribute that is either a literal value or a
reference (`ref_attr_name`) to an attribute of the enclosing function call.
`refAttrName = some r` models `has_ref_attr_name()` being true. -/
structure AttributeProto where
  name : String
  refAttrName : Option String
  value : AttrValue
deriving DecidableEq, Repr

/-- `NodeProto`: an operation record.  `name = some s` models
`has_name()` being true with `name() = s`. -/
structure NodeProto where
  name : Option String
  op_type : String
  domain : String
  input : List String
  output : List String
  attrs : List AttributeProto
deriving DecidableEq, Repr

/-- One `opset_import` entry: a domain together with a 64-bit version. -/
structure OperatorSetIdProto where
  domain : String
  version : Int
deriving DecidableEq, Repr

/-- `FunctionProto`: a function definition with formal input/output names,
a body, and its opset imports. -/
structure FunctionProto where
  name : String
  input : List String
  output : List String
  node : List NodeProto
  opset_import : List OperatorSetIdProto
deriving DecidableEq, Repr

/-- `ValueInfoProto`: a declared graph input or output (only the name is
consulted by this core). -/
structure ValueInfoProto where
  name : String
deriving DecidableEq, Repr

/-- `GraphProto`: named graph with operation records, declared
inputs/outputs and initializers. -/
structure GraphProto where
  name : String
  node : List NodeProto
  input : List ValueInfoProto
  output : List ValueInfoProto
  initializer : List TensorProto
deriving DecidableEq, Repr

/-- An operator schema, reduced to what `FunctionExpandHelper` consults:
`schema->attributes()`, a map from attribute name to the attribute record
whose `default_value` is used.  The pair's second component is directly
the `default_value` `AttributeProto`.  A `std::map` has pairwise distinct
keys; that fact is taken as a hypothesis where needed. -/
structure OpSchema where
  attributes : List (String × AttributeProto)
deriving DecidableEq, Repr

/-- Decidable equality of `Except` results, so concrete runs of the
embedded functions can be checked by `decide`. -/
def exceptDecEq {e a : Type} [DecidableEq e] [DecidableEq a] :
    DecidableEq (Except e a) := fun x y =>
  match x, y with
  | .ok u, .ok v =>
    if h : u = v then .isTrue (by rw [h])
    else .isFalse (fun hc => h (Except.ok.inj hc))
  | .error u, .error v =>
    if h : u = v then .isTrue (by rw [h])
    else .isFalse (fun hc => h (Except.error.inj hc))
  | .ok _, .error _ => .isFalse (fun hc => Except.noConfusion hc)
  | .error _, .ok _ => .isFalse (fun hc => Except.noConfusion hc)

instance {e a : Type} [DecidableEq e] [DecidableEq a] :
    DecidableEq (Except e a) := exceptDecEq

/-! ### Association-list model of `std::unordered_map` -/

/-- Lookup in an association list, last binding wins (models
`unordered_map` where `m[k] = v` overwrites). -/
def findA {α : Type} (m : List (String × α)) (k : String) : Option α :=
  (m.reverse.find? (fun p => p.1 == k)).map (fun p => p.2)

/-- Key-membership test, models `m.count(k)` (0 or 1 for a map). -/
def containsA {α : Type} (m : List (String × α)) (k : String) : Bool :=
  m.any (fun p => p.1 == k)

/-- `m[k] = v`: append a binding (with last-wins lookup this is
observationally the overwrite semantics of `unordered_map`). -/
def insertA {α : Type} (m : List (String × α)) (k : String) (v : α) :
    List (String × α) :=
  m ++ [(k, v)]

/-! ### `function.cc` line 10: internal tensor name generation -/

/-- `InteralTensorNameGenerator` (source spelling preserved):
`"Func_" + node_name + internal_name`. -/
def InteralTensorNameGenerator (node_name internal_name : String) : String :=
  "Func_" ++ node_name ++ internal_name

/-! ### `FunctionExpandHelper` (`function.cc` lines 16-114) -/

/-- The resolved display name of the call-site node
(`function.cc` lines 21-29).  `addr` stands for the address-derived
string `ss.str()` used only when both the node name and the caller's
prefix are absent/empty. -/
def nodeNameOf (node : NodeProto) (func : FunctionProto)
    (nodePfx addr : String) : String :=
  let uniq := if nodePfx = "" then addr else nodePfx
  match node.name with
  | some n => n
  | none => func.name ++ uniq

/-- Positional binding of actuals to formals
(`function.cc` lines 33-50).  For each actual at index `idx`: if
`idx ≥ formals.length` throw `err`; when `skipEmpty` is set an empty
actual is skipped (the formal stays unbound); otherwise bind
`formal ↦ actual`. -/
def bindPositional (m : List (String × String)) (formals actuals : List String)
    (err : String) (skipEmpty : Bool) : Except String (List (String × String)) :=
  match actuals, formals with
  | [], _ => .ok m
  | _ :: _, [] => .error err
  | a :: as, f :: fs =>
    if skipEmpty ∧ a = "" then bindPositional m fs as err skipEmpty
    else bindPositional (insertA m f a) fs as err skipEmpty

/-- The full `io_names_map` construction: inputs
(`function.cc` lines 33-38) then outputs (lines 39-50, empty actual
output names skipped). -/
def ioNamesMap (node : NodeProto) (func : FunctionProto)
    (node_name : String) : Except String (List (String × String)) := do
  let m ← bindPositional [] func.input node.input
    ("Input for function node " ++ node_name ++ " is out of bounds") false
  bindPositional m func.output node.output
    ("Output for function node " ++ node_name ++ " is out of bounds") true

/-- Truncation performed by `static_cast<int>(opset_import.version())`:
64-bit proto value reduced to a signed 32-bit int. -/
def asInt32 (v : Int) : Int :=
  (v + 2147483648) % 4294967296 - 2147483648

/-- Domain-version resolution (`function.cc` lines 59-64): scan all opset
imports, keeping the version of every import whose domain matches (the
loop has no break, so the last match wins); `-1` when none matched. -/
def domainVersionOf (func : FunctionProto) (d : String) : Int :=
  func.opset_import.foldl
    (fun dv imp => if imp.domain = d then asInt32 imp.version else dv) (-1)

/-- The call-site attribute map (`function.cc` lines 52-54):
`attr_map[attr.name()] = attr` over the node's attributes. -/
def attrMapOfNode (node : NodeProto) : List (String × AttributeProto) :=
  node.attrs.foldl (fun am a => insertA am a.name a) []

/-- Schema-default completion (`function.cc` lines 73-79): for every
schema attribute whose name has no entry yet, insert the schema's
`default_value`. -/
def addSchemaDefaults (am : List (String × AttributeProto))
    (schema : OpSchema) : List (String × AttributeProto) :=
  schema.attributes.foldl
    (fun am p => if containsA am p.1 then am else insertA am p.1 p.2) am

/-- The fully resolved attribute mapping for one call site: call-site
attributes completed with schema defaults. -/
def fullAttrMap (node : NodeProto) (schema : OpSchema) :
    List (String × AttributeProto) :=
  addSchemaDefaults (attrMapOfNode node) schema

/-- Instantiation of one body operation record
(`function.cc` lines 81-112): `CopyFrom` then rebuild inputs, outputs
(bound name, else generated internal name) and attributes (literal
copied; reference resolved through the attribute map and renamed to the
body attribute's name, or dropped when unresolved). -/
def instantiateNode (node_name : String) (io : List (String × String))
    (am : List (String × AttributeProto)) (fn : NodeProto) : NodeProto :=
  { fn with
    input := fn.input.map (fun i =>
      (findA io i).getD (InteralTensorNameGenerator node_name i)),
    output := fn.output.map (fun o =>
      (findA io o).getD (InteralTensorNameGenerator node_name o)),
    attrs := fn.attrs.filterMap (fun a =>
      match a.refAttrName with
      | some r => (findA am r).map (fun v => { v with name := a.name })
      | none => some a) }

/-- `FunctionExpandHelper` (`function.cc` lines 16-114).  The operator
schema registry is the external Schema Lookup collaborator and is passed
as a total function, mirroring that the source dereferences the lookup
result unconditionally.  `addr` models the address-derived uniqueness
token (`ss << address`) used when the node is unnamed and `nodePfx` is
empty.  Mutation of `g` becomes returning the updated graph. -/
def FunctionExpandHelper (registry : String → Int → String → OpSchema)
    (node : NodeProto) (func : FunctionProto) (g : GraphProto)
    (nodePfx addr : String) : Except String GraphProto := do
  let node_name := nodeNameOf node func nodePfx addr
  let io ← ioNamesMap node func node_name
  let dv := domainVersionOf func node.domain
  if dv = -1 then
    .error ("No opset import registered for domain \x27" ++ node.domain ++
      "\x27 in function proto")
  else
    let schema := registry node.op_type dv node.domain
    let am := fullAttrMap node schema
    .ok { g with node := g.node ++ func.node.map (instantiateNode node_name io am) }

/-- The internal value names of a function body relative to a binding
map: every input/output name of a body operation record that the
`io_names_map` does not bind (these are exactly the names fed to
`InteralTensorNameGenerator` during instantiation). -/
def internalValueNames (io : List (String × String)) (func : FunctionProto) :
    List String :=
  (func.node.flatMap (fun n => n.input ++ n.output)).filter
    (fun x => ¬ containsA io x)

/-- The set (list) of generated internal names an expansion of `node`
against `func` produces: the generator applied to every unbound internal
value name of the body. -/
def expansionGeneratedNames (node : NodeProto) (func : FunctionProto)
    (nodePfx addr : String) : Except String (List String) :=
  (ioNamesMap node func (nodeNameOf node func nodePfx addr)).map
    (fun io => (internalValueNames io func).map
      (InteralTensorNameGenerator (nodeNameOf node func nodePfx addr)))

/-! ### Graph Splicer: `FunctionBuilder::AddInlinedCall`
(`function.cc` lines 172-217)

The `inliner::Renamer` class and `FunctionBuilder::Const` live outside
the shown source (`onnx/inliner/inliner.h`, `onnx/defs/function.h`);
they are modelled from the spec below. -/

/-- Modelled from the spec: `inliner::Renamer`, missing from the shown
source (`onnx/inliner/inliner.h`).  Spec 4.4 step 1: "a fresh binding
scope keyed by the prefix"; bound names map to their bound target,
unbound names receive a deterministic prefixed rename. -/
structure Renamer where
  pfx : String
  bindings : List (String × String)
deriving DecidableEq, Repr

/-- Modelled from the spec: `Renamer::BindName` records one
formal-to-actual binding in the scope. -/
def Renamer.bindName (r : Renamer) (formal actual : String) : Renamer :=
  { r with bindings := insertA r.bindings formal actual }

/-- Modelled from the spec: renaming of one value name through the
binding scope (spec 4.4 step 5): a bound name becomes its bound target;
an unbound name receives the deterministic prefixed rename
`prefix + original name`. -/
def Renamer.renameVar (r : Renamer) (x : String) : String :=
  (findA r.bindings x).getD (r.pfx ++ x)

/-- Modelled from the spec: `Renamer::RenameNode` rewrites every
input/output name of an operation record through the binding scope. -/
def Renamer.renameNode (r : Renamer) (n : NodeProto) : NodeProto :=
  { n with input := n.input.map r.renameVar, output := n.output.map r.renameVar }

/-- Every input/output name mentioned by a list of operation records. -/
def namesOfNodes (l : List NodeProto) : List String :=
  l.flatMap (fun n => n.input ++ n.output)

/-- All names already emitted by the function under construction, the
collision-avoidance set of spec 4.4 step 4. -/
def usedNames (f : FunctionProto) : List String :=
  namesOfNodes f.node

/-- Candidate `i` for a minted unique name: the prefix, the original
name, and `i` disambiguating marks. -/
def mintCandidate (pfx base : String) (i : Nat) : String :=
  pfx ++ base ++ String.mk (List.replicate i '_')

/-- Modelled from the spec: minting of a globally-unique name (spec 4.4
step 4): derived from the prefix and the original name, avoiding every
name in `used`.  Among `used.length + 1` pairwise distinct candidates at
least one is free, so the fallback of `getD` is never reached. -/
def mintUnique (pfx base : String) (used : List String) : String :=
  (((List.range (used.length + 1)).map (mintCandidate pfx base)).find?
    (fun c => !(used.contains c))).getD (pfx ++ base)

/-- Modelled from the spec: `Renamer::BindToUniqueName` mints a unique
name for `base`, binds `base` to it, and returns it with the updated
scope. -/
def Renamer.bindToUniqueName (r : Renamer) (used : List String)
    (base : String) : String × Renamer :=
  let nm := mintUnique r.pfx base used
  (nm, { r with bindings := insertA r.bindings base nm })

/-- The function-definition builder: accumulates operation records into
a `FunctionProto` under construction. -/
structure FunctionBuilder where
  funProto : FunctionProto
deriving DecidableEq, Repr

/-- Modelled from the spec: `FunctionBuilder::Const` emits one
constant-producing operation record (`Constant` with the tensor as its
`value` attribute and the given single output name) into the function
body. -/
def constNode (nm : String) (t : TensorProto) : NodeProto :=
  { name := none, op_type := "Constant", domain := "", input := [],
    output := [nm],
    attrs := [{ name := "value", refAttrName := none,
                value := AttrValue.tensorVal t }] }

/-- Append one operation record to the function under construction. -/
def FunctionBuilder.addNode (fb : FunctionBuilder) (n : NodeProto) :
    FunctionBuilder :=
  { funProto := { fb.funProto with node := fb.funProto.node ++ [n] } }

/-- The initializer-hoisting loop of `AddInlinedCall`
(`function.cc` lines 198-202): for each initializer, mint a unique name
bound to its original name and emit a constant-producing record. -/
def addConstants : Renamer → FunctionBuilder → List TensorProto →
    Renamer × FunctionBuilder
  | r, fb, [] => (r, fb)
  | r, fb, t :: ts =>
    let p := r.bindToUniqueName (usedNames fb.funProto) t.name
    addConstants p.2 (fb.addNode (constNode p.1 t)) ts

/-- The renamer state after the formal input/output binding loops of
`AddInlinedCall` (`function.cc` lines 177-196): graph inputs are bound
positionally to the caller's actual inputs while those last (`zip`
truncates exactly as the iterator-exhaustion checks do), then graph
outputs likewise. -/
def spliceInitRenamer (graph : GraphProto) (ins outs : List String)
    (pfx : String) : Renamer :=
  { pfx := pfx,
    bindings := ((graph.input.map ValueInfoProto.name).zip ins) ++
      ((graph.output.map ValueInfoProto.name).zip outs) }

/-- `FunctionBuilder::AddInlinedCall` (`function.cc` lines 172-217):
bind graph inputs/outputs to the caller's actual names, hoist every
initializer into a freshly named `Constant` record, then append every
graph operation record renamed through the final scope. -/
def FunctionBuilder.AddInlinedCall (fb : FunctionBuilder)
    (outs : List String) (graph : GraphProto) (ins : List String)
    (pfx : String) : FunctionBuilder :=
  let r0 := spliceInitRenamer graph ins outs pfx
  let p := addConstants r0 fb graph.initializer
  { funProto := { p.2.funProto with
      node := p.2.funProto.node ++ graph.node.map p.1.renameNode } }

/-! ### Axes adapter (`axes_input_to_attribute.h` lines 33-46) -/

/-- Split a byte list into chunks of eight (the element width of
int64); a final partial chunk (possible only when the length is not a
multiple of 8, a case the adapter rejects first) is kept as-is. -/
def chunk8 : List Nat → List (List Nat)
  | b0 :: b1 :: b2 :: b3 :: b4 :: b5 :: b6 :: b7 :: rest =>
    [b0, b1, b2, b3, b4, b5, b6, b7] :: chunk8 rest
  | [] => []
  | l => [l]

/-- Reassemble one little-endian 8-byte chunk into a signed int64 (the
`reinterpret_cast<int64_t*>` of the adapter on a little-endian host). -/
def le8ToInt64 (b : List Nat) : Int :=
  let u : Nat := b.foldr (fun byte acc => byte + 256 * acc) 0
  if u < 9223372036854775808 then (u : Int) else (u : Int) - 18446744073709551616

/-- Reinterpret raw bytes as a vector of int64 values. -/
def decodeInt64LE (raw : List Nat) : List Int :=
  (chunk8 raw).map le8ToInt64

/-- Element count `size_from_dim(0)`: the product of all dimensions. -/
def TensorProto.sizeFromDim0 (t : TensorProto) : Nat :=
  t.dims.foldl (fun a d => a * d) 1

/-- Axes extraction from a `Constant` node's value tensor
(`axes_input_to_attribute.h` lines 35-46): use the explicit int64 list
when non-empty; otherwise require the raw encoding to be non-empty and a
whole multiple of 8 bytes (else the `ONNX_ASSERTM` fires) and
reinterpret it, reading `size_from_dim(0)` elements. -/
def constantAxesExtract (t : TensorProto) : Except String (List Int) :=
  if t.int64s.isEmpty then
    if !t.raw.isEmpty && t.raw.length % 8 == 0 then
      .ok ((decodeInt64LE t.raw).take t.sizeFromDim0)
    else
      .error "Raw Data must be non-empty and size must be a multiple of 8"
  else
    .ok t.int64s

/-! ### Lemmas: the binding loops -/

/-- The binding map produced by a successful run of both binding loops:
inputs zipped positionally, then output pairs with empty actuals
filtered out. -/
def ioZip (node : NodeProto) (func : FunctionProto) :
    List (String × String) :=
  func.input.zip node.input ++
    (func.output.zip node.output).filter (fun p => p.2 ≠ "")

theorem bindPositional_ok_of_le (actuals : List String) :
    ∀ (formals : List String) (m : List (String × String)) (err : String),
    actuals.length ≤ formals.length →
    bindPositional m formals actuals err false = .ok (m ++ formals.zip actuals) := by
  induction actuals with
  | nil => intro formals m err _; cases formals <;> simp [bindPositional]
  | cons a as ih =>
    intro formals m err h
    cases formals with
    | nil => simp at h
    | cons f fs =>
      simp only [List.length_cons, Nat.add_le_add_iff_right] at h
      simp [bindPositional, ih fs _ _ h, insertA]

theorem bindPositional_skip_ok_of_le (actuals : List String) :
    ∀ (formals : List String) (m : List (String × String)) (err : String),
    actuals.length ≤ formals.length →
    bindPositional m formals actuals err true =
      .ok (m ++ (formals.zip actuals).filter (fun p => p.2 ≠ "")) := by
  induction actuals with
  | nil => intro formals m err _; cases formals <;> simp [bindPositional]
  | cons a as ih =>
    intro formals m err h
    cases formals with
    | nil => simp at h
    | cons f fs =>
      simp only [List.length_cons, Nat.add_le_add_iff_right] at h
      by_cases ha : a = ""
      · subst ha
        simp [bindPositional, ih fs _ _ h]
      · simp [bindPositional, ha, ih fs _ _ h, insertA]

theorem bindPositional_err_of_lt (actuals : List String) :
    ∀ (formals : List String) (m : List (String × String)) (err : String)
      (sk : Bool),
    formals.length < actuals.length →
    bindPositional m formals actuals err sk = .error err := by
  induction actuals with
  | nil => intro formals m err sk h; simp at h
  | cons a as ih =>
    intro formals m err sk h
    cases formals with
    | nil => simp [bindPositional]
    | cons f fs =>
      simp only [List.length_cons, Nat.add_lt_add_iff_right] at h
      by_cases hsk : sk = true ∧ a = ""
      · simp [bindPositional, hsk, ih fs _ _ _ h]
      · simp [bindPositional, hsk, ih fs _ _ _ h]

theorem ioNamesMap_ok (node : NodeProto) (func : FunctionProto)
    (nm : String) (hin : node.input.length ≤ func.input.length)
    (hout : node.output.length ≤ func.output.length) :
    ioNamesMap node func nm = .ok (ioZip node func) := by
  simp [ioNamesMap, bindPositional_ok_of_le _ _ _ _ hin,
    bindPositional_skip_ok_of_le _ _ _ _ hout, ioZip, Bind.bind, Except.bind]

theorem ioNamesMap_err_input (node : NodeProto) (func : FunctionProto)
    (nm : String) (hin : func.input.length < node.input.length) :
    ioNamesMap node func nm =
      .error ("Input for function node " ++ nm ++ " is out of bounds") := by
  simp [ioNamesMap, bindPositional_err_of_lt _ _ _ _ _ hin, Bind.bind, Except.bind]

theorem ioNamesMap_err_output (node : NodeProto) (func : FunctionProto)
    (nm : String) (hin : node.input.length ≤ func.input.length)
    (hout : func.output.length < node.output.length) :
    ioNamesMap node func nm =
      .error ("Output for function node " ++ nm ++ " is out of bounds") := by
  simp [ioNamesMap, bindPositional_ok_of_le _ _ _ _ hin,
    bindPositional_err_of_lt _ _ _ _ _ hout, Bind.bind, Except.bind]

/-! ### Lemmas: success and failure shape of the expansion -/

theorem FunctionExpandHelper_ok (registry : String → Int → String → OpSchema)
    (node : NodeProto) (func : FunctionProto) (g : GraphProto)
    (nodePfx addr : String)
    (hin : node.input.length ≤ func.input.length)
    (hout : node.output.length ≤ func.output.length)
    (hdv : domainVersionOf func node.domain ≠ -1) :
    FunctionExpandHelper registry node func g nodePfx addr =
      .ok { g with node := g.node ++ func.node.map (instantiateNode
        (nodeNameOf node func nodePfx addr) (ioZip node func)
        (fullAttrMap node (registry node.op_type
          (domainVersionOf func node.domain) node.domain))) } := by
  simp [FunctionExpandHelper, ioNamesMap_ok node func _ hin hout, hdv,
    Bind.bind, Except.bind]

theorem FunctionExpandHelper_err_input
    (registry : String → Int → String → OpSchema)
    (node : NodeProto) (func : FunctionProto) (g : GraphProto)
    (nodePfx addr : String)
    (hin : func.input.length < node.input.length) :
    FunctionExpandHelper registry node func g nodePfx addr =
      .error ("Input for function node " ++
        nodeNameOf node func nodePfx addr ++ " is out of bounds") := by
  simp [FunctionExpandHelper, ioNamesMap_err_input node func _ hin,
    Bind.bind, Except.bind]

theorem FunctionExpandHelper_err_output
    (registry : String → Int → String → OpSchema)
    (node : NodeProto) (func : FunctionProto) (g : GraphProto)
    (nodePfx addr : String)
    (hin : node.input.length ≤ func.input.length)
    (hout : func.output.length < node.output.length) :
    FunctionExpandHelper registry node func g nodePfx addr =
      .error ("Output for function node " ++
        nodeNameOf node func nodePfx addr ++ " is out of bounds") := by
  simp [FunctionExpandHelper, ioNamesMap_err_output node func _ hin hout,
    Bind.bind, Except.bind]

theorem FunctionExpandHelper_err_opset
    (registry : String → Int → String → OpSchema)
    (node : NodeProto) (func : FunctionProto) (g : GraphProto)
    (nodePfx addr : String)
    (hin : node.input.length ≤ func.input.length)
    (hout : node.output.length ≤ func.output.length)
    (hdv : domainVersionOf func node.domain = -1) :
    FunctionExpandHelper registry node func g nodePfx addr =
      .error ("No opset import registered for domain \x27" ++ node.domain ++
        "\x27 in function proto") := by
  simp [FunctionExpandHelper, ioNamesMap_ok node func _ hin hout, hdv,
    Bind.bind, Except.bind]

/-! ### Shared concrete examples -/

/-- A registry with a schema declaring no attributes, for concrete runs. -/
def exRegistry : String → Int → String → OpSchema := fun _ _ _ => ⟨[]⟩

/-- Example function: one input `X`, one output `Z`, a body whose single
record reads `X` and writes the internal value `t`. -/
def exFunc : FunctionProto :=
  { name := "F", input := ["X"], output := ["Z"],
    node := [{ name := none, op_type := "Identity", domain := "",
               input := ["X"], output := ["t"], attrs := [] }],
    opset_import := [⟨"", 14⟩] }

/-- Example call site named `n` with input `a`, output `c`. -/
def exNode1 : NodeProto :=
  { name := some "n", op_type := "F", domain := "", input := ["a"],
    output := ["c"], attrs := [] }

/-- A second, distinct call site with the same node name `n`. -/
def exNode2 : NodeProto :=
  { name := some "n", op_type := "F", domain := "", input := ["b"],
    output := ["d"], attrs := [] }

/-- An empty destination graph. -/
def exGraph : GraphProto :=
  { name := "g", node := [], input := [], output := [], initializer := [] }

/-- The single record `exFunc` expands to at call site `exNode1`: the
formal input `X` becomes `a`, the internal value `t` gets the generated
name. -/
def exExpanded1 : NodeProto :=
  { name := none, op_type := "Identity", domain := "", input := ["a"],
    output := ["Func_nt"], attrs := [] }

/-- The corresponding record for call site `exNode2`. -/
def exExpanded2 : NodeProto :=
  { name := none, op_type := "Identity", domain := "", input := ["b"],
    output := ["Func_nt"], attrs := [] }

/-! ### Claim C2: input/output arity -/

/-- C2: for a call site with `k` inputs and `k ≤` the function's formal
input count, the input-binding loop succeeds and produces exactly the
`k` positional formal-to-actual bindings; if the call site has more
inputs than formals the expansion fails with the fatal out-of-bounds
error naming the call site, and likewise when its outputs exceed the
formal output count. -/
theorem C2_binding_arity (registry : String → Int → String → OpSchema)
    (node : NodeProto) (func : FunctionProto) (g : GraphProto)
    (nodePfx addr : String) :
    (node.input.length ≤ func.input.length →
      bindPositional [] func.input node.input
        ("Input for function node " ++ nodeNameOf node func nodePfx addr ++
          " is out of bounds") false = .ok (func.input.zip node.input) ∧
      (func.input.zip node.input).length = node.input.length) ∧
    (func.input.length < node.input.length →
      FunctionExpandHelper registry node func g nodePfx addr =
        .error ("Input for function node " ++
          nodeNameOf node func nodePfx addr ++ " is out of bounds")) ∧
    (node.input.length ≤ func.input.length →
      func.output.length < node.output.length →
      FunctionExpandHelper registry node func g nodePfx addr =
        .error ("Output for function node " ++
          nodeNameOf node func nodePfx addr ++ " is out of bounds")) := by
  refine ⟨fun h => ⟨bindPositional_ok_of_le _ _ _ _ h, ?_⟩,
    fun h => FunctionExpandHelper_err_input registry node func g nodePfx addr h,
    fun h1 h2 =>
      FunctionExpandHelper_err_output registry node func g nodePfx addr h1 h2⟩
  simp [List.length_zip, Nat.min_eq_right h]

/-- Concrete run of `C2_binding_arity`: a one-input call of a one-input
function binds `X ↦ a`; a two-input call of the same function fails with
the out-of-bounds message naming node `n`. -/
theorem C2_binding_arity_witness :
    (bindPositional [] exFunc.input exNode1.input
      ("Input for function node " ++ nodeNameOf exNode1 exFunc "" "p" ++
        " is out of bounds") false = .ok (exFunc.input.zip exNode1.input) ∧
      (exFunc.input.zip exNode1.input).length = exNode1.input.length) ∧
    FunctionExpandHelper exRegistry
      { exNode1 with input := ["a", "b"] } exFunc exGraph "" "p" =
      .error ("Input for function node " ++
        nodeNameOf { exNode1 with input := ["a", "b"] } exFunc "" "p" ++
        " is out of bounds") :=
  ⟨(C2_binding_arity exRegistry exNode1 exFunc exGraph "" "p").1 (by decide),
   (C2_binding_arity exRegistry { exNode1 with input := ["a", "b"] } exFunc
     exGraph "" "p").2.1 (by decide)⟩

/-! ### Domain-version resolution -/

theorem asInt32_eq_self (v : Int) (h0 : 0 ≤ v) (h1 : v < 2147483648) :
    asInt32 v = v := by
  unfold asInt32
  rw [Int.emod_eq_of_lt (by omega) (by omega)]
  omega

theorem foldl_domainVersion (d : String) (l : List OperatorSetIdProto) :
    ∀ init : Int,
    l.foldl (fun dv imp => if imp.domain = d then asInt32 imp.version else dv)
        init =
      ((l.filter (fun imp => imp.domain == d)).getLast?).elim init
        (fun imp => asInt32 imp.version) := by
  induction l with
  | nil => intro init; simp
  | cons x xs ih =>
    intro init
    by_cases hx : x.domain = d
    · rw [List.foldl_cons, if_pos hx, ih (asInt32 x.version),
        List.filter_cons]
      simp only [hx, beq_self_eq_true, if_true]
      cases hfx : xs.filter (fun imp => imp.domain == d) with
      | nil => simp
      | cons y ys =>
        rw [List.getLast?_cons_cons]
        cases hgl : (y :: ys).getLast? with
        | none => rw [List.getLast?_eq_none_iff] at hgl; cases hgl
        | some z => simp
    · rw [List.foldl_cons, if_neg hx, ih init, List.filter_cons]
      have hxb : (x.domain == d) = false := by simp [hx]
      simp only [hxb, Bool.false_eq_true, if_false]

theorem domainVersionOf_eq_getLast (func : FunctionProto) (d : String) :
    domainVersionOf func d =
      ((func.opset_import.filter (fun imp => imp.domain == d)).getLast?).elim
        (-1) (fun imp => asInt32 imp.version) := by
  unfold domainVersionOf
  exact foldl_domainVersion d func.opset_import (-1)

/-! ### Claim C6: opset-import resolution -/

/-- C6: when no opset import of the function definition matches the call
site's domain, expansion fails with the fatal unresolved-opset-import
error irrespective of the function body (so before any body record is
cloned); when a match exists (with a version that does not collapse to
the `-1` sentinel), the matching import's version is the version handed
to the operator-schema lookup whose defaults feed every instantiated
record. -/
theorem C6_opset_import_resolution
    (registry : String → Int → String → OpSchema)
    (node : NodeProto) (func : FunctionProto) (g : GraphProto)
    (nodePfx addr : String)
    (hin : node.input.length ≤ func.input.length)
    (hout : node.output.length ≤ func.output.length) :
    ((∀ imp ∈ func.opset_import, imp.domain ≠ node.domain) →
      ∀ body2 : List NodeProto,
      FunctionExpandHelper registry node { func with node := body2 } g
          nodePfx addr =
        .error ("No opset import registered for domain \x27" ++ node.domain ++
          "\x27 in function proto")) ∧
    (∀ lastImp,
      (func.opset_import.filter
        (fun imp => imp.domain == node.domain)).getLast? = some lastImp →
      asInt32 lastImp.version ≠ -1 →
      domainVersionOf func node.domain = asInt32 lastImp.version ∧
      FunctionExpandHelper registry node func g nodePfx addr =
        .ok { g with node := g.node ++ func.node.map (instantiateNode
          (nodeNameOf node func nodePfx addr) (ioZip node func)
          (fullAttrMap node (registry node.op_type
            (asInt32 lastImp.version) node.domain))) }) := by
  constructor
  · intro hnone body2
    have hfil : func.opset_import.filter
        (fun imp => imp.domain == node.domain) = [] := by
      rw [List.filter_eq_nil_iff]
      intro imp hmem
      simp [hnone imp hmem]
    have hdv : domainVersionOf { func with node := body2 } node.domain = -1 := by
      rw [show domainVersionOf { func with node := body2 } node.domain =
            domainVersionOf func node.domain from rfl,
        domainVersionOf_eq_getLast, hfil]
      rfl
    exact FunctionExpandHelper_err_opset registry node _ g nodePfx addr
      hin hout hdv
  · intro lastImp hlast hne
    have hdv : domainVersionOf func node.domain = asInt32 lastImp.version := by
      rw [domainVersionOf_eq_getLast, hlast]
      rfl
    refine ⟨hdv, ?_⟩
    rw [← hdv]
    exact FunctionExpandHelper_ok registry node func g nodePfx addr hin hout
      (hdv ▸ hne)

/-- Concrete run of `C6_opset_import_resolution`: a call in domain `x`
against `exFunc` (which only imports the default domain) fails fatally;
the call `exNode1` in the default domain resolves version 14 and
expands. -/
theorem C6_opset_import_resolution_witness :
    (FunctionExpandHelper exRegistry { exNode1 with domain := "x" }
        { exFunc with node := [] } exGraph "" "p" =
      .error ("No opset import registered for domain \x27x\x27 in function proto")) ∧
    domainVersionOf exFunc "" = 14 ∧
    FunctionExpandHelper exRegistry exNode1 exFunc exGraph "" "p" =
      .ok { exGraph with node := [exExpanded1] } := by
  refine ⟨?_, ?_, ?_⟩
  · exact (C6_opset_import_resolution exRegistry
      { exNode1 with domain := "x" } exFunc exGraph "" "p" (by decide)
      (by decide)).1 (by decide) []
  · exact ((C6_opset_import_resolution exRegistry exNode1 exFunc exGraph
      "" "p" (by decide) (by decide)).2 ⟨"", 14⟩ (by decide) (by decide)).1
  · have h := ((C6_opset_import_resolution exRegistry exNode1 exFunc exGraph
      "" "p" (by decide) (by decide)).2 ⟨"", 14⟩ (by decide) (by decide)).2
    rw [h]; decide

/-! ### Claim C10: the opset scan keeps the last match -/

/-- C10: when several opset imports of the function definition share the
call site's domain, the scan (which has no early exit) resolves to the
version of the *last* matching import in declaration order. -/
theorem C10_last_matching_import (func : FunctionProto) (d : String)
    (pre mid post : List OperatorSetIdProto) (i1 i2 : OperatorSetIdProto)
    (hsplit : func.opset_import = pre ++ i1 :: mid ++ i2 :: post)
    (h1 : i1.domain = d) (h2 : i2.domain = d)
    (hpost : ∀ imp ∈ post, imp.domain ≠ d)
    (hlo : 0 ≤ i2.version) (hhi : i2.version < 2147483648) :
    domainVersionOf func d = i2.version := by
  rw [domainVersionOf_eq_getLast, hsplit]
  have hpostnil : post.filter (fun imp => imp.domain == d) = [] := by
    rw [List.filter_eq_nil_iff]
    intro imp hmem
    simp [hpost imp hmem]
  rw [List.filter_append, List.filter_cons, List.filter_append,
    List.filter_cons, hpostnil]
  simp only [h1, h2, beq_self_eq_true, if_true]
  rw [List.getLast?_concat]
  simp [asInt32_eq_self i2.version hlo hhi]

/-- Concrete run of `C10_last_matching_import`: two imports for the
default domain, versions 13 then 14; resolution yields 14. -/
theorem C10_last_matching_import_witness :
    domainVersionOf { exFunc with opset_import := [⟨"", 13⟩, ⟨"", 14⟩] } "" =
      14 :=
  C10_last_matching_import { exFunc with opset_import := [⟨"", 13⟩, ⟨"", 14⟩] }
    "" [] [] [] ⟨"", 13⟩ ⟨"", 14⟩ (by decide) (by decide) (by decide)
    (by intro imp h; cases h) (by decide) (by decide)

/-! ### Claim C1: cross-call-site name uniqueness -/

theorem append_ne_of_prefix_incomparable (n1 n2 s1 s2 : List Char)
    (h12 : ¬ n1 <+: n2) (h21 : ¬ n2 <+: n1) :
    n1 ++ s1 ≠ n2 ++ s2 := by
  intro h
  have p1 : n1 <+: n2 ++ s2 := h ▸ List.prefix_append n1 s1
  have p2 : n2 <+: n2 ++ s2 := List.prefix_append n2 s2
  rcases Nat.le_total n1.length n2.length with hle | hle
  · exact h12 (List.prefix_of_prefix_length_le p1 p2 hle)
  · exact h21 (List.prefix_of_prefix_length_le p2 p1 hle)

theorem mem_expansionGeneratedNames (node : NodeProto) (func : FunctionProto)
    (nodePfx addr : String) (l : List String) (x : String)
    (h : expansionGeneratedNames node func nodePfx addr = .ok l)
    (hx : x ∈ l) :
    ∃ s, x = InteralTensorNameGenerator (nodeNameOf node func nodePfx addr) s := by
  unfold expansionGeneratedNames at h
  cases hio : ioNamesMap node func (nodeNameOf node func nodePfx addr) with
  | error e => rw [hio] at h; cases h
  | ok io =>
    rw [hio] at h
    cases h
    rcases List.mem_map.mp hx with ⟨s, _, hs⟩
    exact ⟨s, hs.symm⟩

/-- C1 (amended): the generated internal names of two call sites
expanded with `FunctionExpandHelper` are disjoint *provided* the two
resolved node names are prefix-incomparable (neither is a prefix of the
other); in particular they must be distinct.  Without that proviso the
claim is false, see the counterexample. -/
theorem C1_generated_names_disjoint (node1 node2 : NodeProto)
    (func1 func2 : FunctionProto) (p1 a1 p2 a2 : String)
    (l1 l2 : List String)
    (h1 : expansionGeneratedNames node1 func1 p1 a1 = .ok l1)
    (h2 : expansionGeneratedNames node2 func2 p2 a2 = .ok l2)
    (h12 : ¬ (nodeNameOf node1 func1 p1 a1).data <+:
      (nodeNameOf node2 func2 p2 a2).data)
    (h21 : ¬ (nodeNameOf node2 func2 p2 a2).data <+:
      (nodeNameOf node1 func1 p1 a1).data) :
    ∀ x ∈ l1, x ∉ l2 := by
  intro x hx1 hx2
  rcases mem_expansionGeneratedNames node1 func1 p1 a1 l1 x h1 hx1 with ⟨s1, e1⟩
  rcases mem_expansionGeneratedNames node2 func2 p2 a2 l2 x h2 hx2 with ⟨s2, e2⟩
  have e : InteralTensorNameGenerator (nodeNameOf node1 func1 p1 a1) s1 =
      InteralTensorNameGenerator (nodeNameOf node2 func2 p2 a2) s2 :=
    e1 ▸ e2
  unfold InteralTensorNameGenerator at e
  have ed := congrArg String.data e
  simp only [String.data_append, List.append_assoc] at ed
  have ed2 := List.append_cancel_left ed
  exact append_ne_of_prefix_incomparable _ _ _ _ h12 h21 ed2

/-- C1 counterexample: two distinct call sites (`exNode1`, `exNode2`,
which differ in their actual inputs and outputs but share the node name
`n`) that call the same function definition, expanded successively into
the same destination graph, both generate the internal name `Func_nt`:
their generated-name sets are not disjoint, and the two appended records
both write the value name `Func_nt`. -/
theorem C1_generated_names_collide :
    exNode1 ≠ exNode2 ∧
    expansionGeneratedNames exNode1 exFunc "" "p" = .ok ["Func_nt"] ∧
    expansionGeneratedNames exNode2 exFunc "" "p" = .ok ["Func_nt"] ∧
    FunctionExpandHelper exRegistry exNode1 exFunc exGraph "" "p" =
      .ok { exGraph with node := [exExpanded1] } ∧
    FunctionExpandHelper exRegistry exNode2 exFunc
        { exGraph with node := [exExpanded1] } "" "p" =
      .ok { exGraph with node := [exExpanded1, exExpanded2] } ∧
    exExpanded1.output = ["Func_nt"] ∧ exExpanded2.output = ["Func_nt"] ∧
    ¬ (∀ x ∈ ["Func_nt"], x ∉ ["Func_nt"]) := by
  refine ⟨by decide, by decide, by decide, by decide, by decide, by decide,
    by decide, ?_⟩
  intro h
  exact h "Func_nt" (by decide) (by decide)

/-- Concrete run of `C1_generated_names_disjoint`: call sites named `n`
and `m` (prefix-incomparable), so the generated names `Func_nt` and
`Func_mt` cannot collide. -/
theorem C1_generated_names_disjoint_witness :
    "Func_nt" ∉ (["Func_mt"] : List String) :=
  C1_generated_names_disjoint exNode1 { exNode2 with name := some "m" }
    exFunc exFunc "" "p" "" "p" ["Func_nt"] ["Func_mt"]
    (by decide) (by decide) (by decide) (by decide) "Func_nt" (by decide)

/-! ### Lemmas: association-list lookups -/

theorem findA_eq_none_iff {α : Type} (m : List (String × α)) (k : String) :
    findA m k = none ↔ ∀ p ∈ m, p.1 ≠ k := by
  simp only [findA, Option.map_eq_none', List.find?_eq_none, List.mem_reverse,
    beq_iff_eq]

theorem containsA_eq_false_iff {α : Type} (m : List (String × α)) (k : String) :
    containsA m k = false ↔ ∀ p ∈ m, p.1 ≠ k := by
  simp only [containsA, List.any_eq_false, beq_iff_eq]

theorem findA_insertA_self {α : Type} (m : List (String × α)) (k : String)
    (v : α) : findA (insertA m k v) k = some v := by
  simp [findA, insertA, List.find?]

theorem findA_insertA_ne {α : Type} (m : List (String × α)) (k k2 : String)
    (v : α) (h : k2 ≠ k) : findA (insertA m k2 v) k = findA m k := by
  have hb : (((k2, v) : String × α).1 == k) = false := by simp [h]
  simp [findA, insertA, List.find?_cons_of_neg, hb]

theorem containsA_insertA {α : Type} (m : List (String × α)) (k k2 : String)
    (v : α) : containsA (insertA m k2 v) k = (containsA m k || (k2 == k)) := by
  simp [containsA, insertA]

theorem foldl_insertA_eq_map (l : List AttributeProto) :
    ∀ init, l.foldl (fun am a => insertA am a.name a) init =
      init ++ l.map (fun a => (a.name, a)) := by
  induction l with
  | nil => intro init; simp
  | cons a as ih =>
    intro init
    rw [List.foldl_cons, ih (insertA init a.name a)]
    simp [insertA]

theorem attrMapOfNode_eq_map (node : NodeProto) :
    attrMapOfNode node = node.attrs.map (fun a => (a.name, a)) := by
  simpa using foldl_insertA_eq_map node.attrs []

theorem findA_defaults_fold_preserved (an : String)
    (l : List (String × AttributeProto)) :
    ∀ am, containsA am an = true →
    findA (l.foldl
      (fun am p => if containsA am p.1 then am else insertA am p.1 p.2) am) an =
      findA am an := by
  induction l with
  | nil => intro am _; rfl
  | cons p ps ih =>
    intro am ham
    by_cases hc : containsA am p.1
    · simp only [List.foldl_cons, hc, if_true, ih am ham]
    · have hne : p.1 ≠ an := by
        intro h
        rw [h, ham] at hc
        exact hc rfl
      have ham2 : containsA (insertA am p.1 p.2) an = true := by
        simp [containsA_insertA, ham]
      simp only [List.foldl_cons, hc, Bool.false_eq_true, if_false,
        ih _ ham2, findA_insertA_ne am an p.1 p.2 hne]

theorem findA_defaults_fold (an : String) (dflt : AttributeProto)
    (l : List (String × AttributeProto)) :
    ∀ am, (an, dflt) ∈ l → (l.map Prod.fst).Nodup →
    containsA am an = false →
    findA (l.foldl
      (fun am p => if containsA am p.1 then am else insertA am p.1 p.2) am) an =
      some dflt := by
  induction l with
  | nil => intro am h; cases h
  | cons p ps ih =>
    intro am hmem hnodup ham
    rw [List.map_cons] at hnodup
    have hhead : p.1 ∉ ps.map Prod.fst := (List.nodup_cons.mp hnodup).1
    have hnodup2 : (ps.map Prod.fst).Nodup := (List.nodup_cons.mp hnodup).2
    rcases List.mem_cons.mp hmem with heq | htail
    · subst heq
      simp only [List.foldl_cons, ham, Bool.false_eq_true, if_false]
      have : containsA (insertA am an dflt) an = true := by
        simp [containsA_insertA]
      rw [findA_defaults_fold_preserved an ps _ this, findA_insertA_self]
    · have hfst : an ∈ ps.map Prod.fst :=
        List.mem_map.mpr ⟨(an, dflt), htail, rfl⟩
      have hne : p.1 ≠ an := by
        intro h
        exact hhead (h ▸ hfst)
      by_cases hc : containsA am p.1
      · simp only [List.foldl_cons, hc, if_true]
        exact ih am htail hnodup2 ham
      · simp only [List.foldl_cons, hc, Bool.false_eq_true, if_false]
        refine ih _ htail hnodup2 ?_
        simp [containsA_insertA, ham, hne]

theorem mem_zip_exists_index {α β : Type} (l1 : List α) :
    ∀ (l2 : List β) (p : α × β), p ∈ l1.zip l2 →
    ∃ j : Nat, l1[j]? = some p.1 ∧ l2[j]? = some p.2 := by
  induction l1 with
  | nil => intro l2 p h; simp at h
  | cons a as ih =>
    intro l2 p h
    cases l2 with
    | nil => simp at h
    | cons b bs =>
      rcases List.mem_cons.mp h with heq | htail
      · exact ⟨0, by simp [heq]⟩
      · rcases ih bs p htail with ⟨j, h1, h2⟩
        exact ⟨j + 1, by simpa using h1, by simpa using h2⟩

/-! ### Claim C3: empty actual output names -/

theorem InteralTensorNameGenerator_ne_empty (nm s : String) :
    InteralTensorNameGenerator nm s ≠ "" := by
  intro h
  have hl := congrArg String.length h
  rw [InteralTensorNameGenerator] at hl
  rw [String.length_append, String.length_append] at hl
  have h5 : ("Func_".length : Nat) = 5 := rfl
  have h0 : ("".length : Nat) = 0 := rfl
  omega

theorem findA_ioZip_eq_none (node : NodeProto) (func : FunctionProto)
    (f : String)
    (hfin : ∀ q ∈ func.input.zip node.input, q.1 ≠ f)
    (hfout : ∀ j : Nat, j < node.output.length →
      func.output[j]? = some f → node.output[j]? = some "") :
    findA (ioZip node func) f = none := by
  rw [findA_eq_none_iff]
  intro q hq
  rcases List.mem_append.mp hq with hq1 | hq2
  · exact hfin q hq1
  · have hmem := List.mem_filter.mp hq2
    rcases mem_zip_exists_index func.output node.output q hmem.1 with
      ⟨j, hjf, hjn⟩
    intro hqf
    have hjlt : j < node.output.length := by
      rcases List.getElem?_eq_some.mp hjn with ⟨hlt, _⟩
      exact hlt
    have hempty := hfout j hjlt (hqf ▸ hjf)
    rw [hjn] at hempty
    have hq2e : q.2 = "" := Option.some.inj hempty
    have hpred := hmem.2
    rw [hq2e] at hpred
    simp at hpred

/-- C3: an empty actual output name at index `i` leaves the formal
output `f` at that index unbound, provided `f` is not also bound through
an input slot or another (non-empty) output slot; every occurrence of
`f` in the instantiated body then becomes the generated internal name at
the same position (so it is neither dropped nor mapped to the empty
actual name), and the expansion succeeds. -/
theorem C3_empty_output_stays_internal
    (registry : String → Int → String → OpSchema)
    (node : NodeProto) (func : FunctionProto) (g : GraphProto)
    (nodePfx addr : String) (i : Nat) (f : String)
    (hin : node.input.length ≤ func.input.length)
    (hout : node.output.length ≤ func.output.length)
    (hdv : domainVersionOf func node.domain ≠ -1)
    (hi : node.output[i]? = some "")
    (hf : func.output[i]? = some f)
    (hfin : ∀ q ∈ func.input.zip node.input, q.1 ≠ f)
    (hfout : ∀ j : Nat, j < node.output.length →
      func.output[j]? = some f → node.output[j]? = some "") :
    findA (ioZip node func) f = none ∧
    InteralTensorNameGenerator (nodeNameOf node func nodePfx addr) f ≠ "" ∧
    FunctionExpandHelper registry node func g nodePfx addr =
      .ok { g with node := g.node ++ func.node.map (instantiateNode
        (nodeNameOf node func nodePfx addr) (ioZip node func)
        (fullAttrMap node (registry node.op_type
          (domainVersionOf func node.domain) node.domain))) } ∧
    ∀ bn ∈ func.node,
      (∀ j : Nat, bn.input[j]? = some f →
        (instantiateNode (nodeNameOf node func nodePfx addr) (ioZip node func)
          (fullAttrMap node (registry node.op_type
            (domainVersionOf func node.domain) node.domain)) bn).input[j]? =
          some (InteralTensorNameGenerator
            (nodeNameOf node func nodePfx addr) f)) ∧
      (∀ j : Nat, bn.output[j]? = some f →
        (instantiateNode (nodeNameOf node func nodePfx addr) (ioZip node func)
          (fullAttrMap node (registry node.op_type
            (domainVersionOf func node.domain) node.domain)) bn).output[j]? =
          some (InteralTensorNameGenerator
            (nodeNameOf node func nodePfx addr) f)) := by
  have hnone := findA_ioZip_eq_none node func f hfin hfout
  refine ⟨hnone, InteralTensorNameGenerator_ne_empty _ f,
    FunctionExpandHelper_ok registry node func g nodePfx addr hin hout hdv,
    ?_⟩
  intro bn _
  constructor
  · intro j hj
    rw [instantiateNode]
    simp only [List.getElem?_map, hj, Option.map_some', hnone, Option.getD_none]
  · intro j hj
    rw [instantiateNode]
    simp only [List.getElem?_map, hj, Option.map_some', hnone, Option.getD_none]

/-- Concrete run of `C3_empty_output_stays_internal`: calling `exFunc`
with an empty actual output leaves `Z` internal; the body record writing
`t` keeps writing a generated name and a body occurrence of `Z` would
become `Func_nZ`. -/
theorem C3_empty_output_stays_internal_witness :
    findA (ioZip { exNode1 with output := [""] } exFunc) "Z" = none ∧
    FunctionExpandHelper exRegistry { exNode1 with output := [""] } exFunc
        exGraph "" "p" =
      .ok { exGraph with node := [exExpanded1] } := by
  have h := C3_empty_output_stays_internal exRegistry
    { exNode1 with output := [""] } exFunc exGraph "" "p" 0 "Z"
    (by decide) (by decide) (by decide) (by decide) (by decide)
    (by decide)
    (by
      intro j hj hjf
      cases j with
      | zero => decide
      | succ j2 => simp [exFunc] at hjf)
  refine ⟨h.1, ?_⟩
  rw [h.2.2.1]
  decide

/-! ### Claim C4: unresolved attribute references are dropped silently -/

/-- C4: a body attribute carrying a reference whose target is absent
from the resolved attribute mapping (call-site attributes plus schema
defaults) is omitted entirely from the cloned record — no attribute of
that name appears (the body record's attribute names being unique, as
they are in a valid proto) — and the expansion still succeeds. -/
theorem C4_missing_ref_attr_dropped
    (registry : String → Int → String → OpSchema)
    (node : NodeProto) (func : FunctionProto) (g : GraphProto)
    (nodePfx addr : String) (bn : NodeProto) (att : AttributeProto)
    (r : String)
    (hin : node.input.length ≤ func.input.length)
    (hout : node.output.length ≤ func.output.length)
    (hdv : domainVersionOf func node.domain ≠ -1)
    (hbn : bn ∈ func.node) (hatt : att ∈ bn.attrs)
    (href : att.refAttrName = some r)
    (hmiss : findA (fullAttrMap node (registry node.op_type
      (domainVersionOf func node.domain) node.domain)) r = none)
    (hnodup : (bn.attrs.map AttributeProto.name).Nodup) :
    FunctionExpandHelper registry node func g nodePfx addr =
      .ok { g with node := g.node ++ func.node.map (instantiateNode
        (nodeNameOf node func nodePfx addr) (ioZip node func)
        (fullAttrMap node (registry node.op_type
          (domainVersionOf func node.domain) node.domain))) } ∧
    ∀ na ∈ (instantiateNode (nodeNameOf node func nodePfx addr)
        (ioZip node func)
        (fullAttrMap node (registry node.op_type
          (domainVersionOf func node.domain) node.domain)) bn).attrs,
      na.name ≠ att.name := by
  refine ⟨FunctionExpandHelper_ok registry node func g nodePfx addr
    hin hout hdv, ?_⟩
  intro na hna
  rw [instantiateNode] at hna
  simp only at hna
  rcases List.mem_filterMap.mp hna with ⟨a0, ha0, hres⟩
  by_cases heq : a0 = att
  · subst heq
    simp [href, hmiss] at hres
  · have hname : na.name = a0.name := by
      cases hra : a0.refAttrName with
      | none =>
        simp only [hra] at hres
        rw [← Option.some.inj hres]
      | some r0 =>
        simp only [hra] at hres
        rcases Option.map_eq_some'.mp hres with ⟨v, _, hv⟩
        rw [← hv]
    intro hcontra
    exact heq (List.inj_on_of_nodup_map hnodup ha0 hatt (hname ▸ hcontra))

/-- The body attribute referencing the absent caller attribute
`missing`. -/
def exRefAttr : AttributeProto :=
  { name := "alpha", refAttrName := some "missing",
    value := AttrValue.noneVal }

/-- A body record carrying only `exRefAttr`. -/
def exRefBody : NodeProto :=
  { name := none, op_type := "Identity", domain := "", input := ["X"],
    output := ["t"], attrs := [exRefAttr] }

/-- `exFunc` with `exRefBody` as its body. -/
def exFuncRef : FunctionProto := { exFunc with node := [exRefBody] }

/-- Concrete run of `C4_missing_ref_attr_dropped`: a body record whose
only attribute references the absent attribute `missing` expands to a
record with no attributes at all. -/
theorem C4_missing_ref_attr_dropped_witness :
    FunctionExpandHelper exRegistry exNode1 exFuncRef exGraph "" "p" =
      .ok { exGraph with node := [exExpanded1] } ∧
    ∀ na ∈ (instantiateNode (nodeNameOf exNode1 exFuncRef "" "p")
        (ioZip exNode1 exFuncRef)
        (fullAttrMap exNode1 (exRegistry "F" 14 "")) exRefBody).attrs,
      na.name ≠ "alpha" := by
  have h := C4_missing_ref_attr_dropped exRegistry exNode1 exFuncRef exGraph
    "" "p" exRefBody exRefAttr "missing"
    (by decide) (by decide) (by decide) (by decide) (by decide) (by decide)
    (by decide) (by decide)
  exact ⟨by rw [h.1]; decide, h.2⟩

/-! ### Claim C5: schema defaults fill unsupplied attributes -/

/-- C5: a formal attribute `an` declared by the resolved operator schema
with default `dflt` (schema keys being pairwise distinct, as in a
`std::map`) that the call site did not supply is inserted into the
resolved attribute mapping with the schema's default value; every body
attribute referencing `an` therefore appears in the instantiated record
as the default value renamed to the body attribute's own name (a literal
when the default is, since the reference field is copied from the
default). -/
theorem C5_schema_default_inserted
    (registry : String → Int → String → OpSchema)
    (node : NodeProto) (func : FunctionProto) (g : GraphProto)
    (nodePfx addr : String) (an : String) (dflt : AttributeProto)
    (hin : node.input.length ≤ func.input.length)
    (hout : node.output.length ≤ func.output.length)
    (hdv : domainVersionOf func node.domain ≠ -1)
    (hdecl : (an, dflt) ∈ (registry node.op_type
      (domainVersionOf func node.domain) node.domain).attributes)
    (hkeys : ((registry node.op_type (domainVersionOf func node.domain)
      node.domain).attributes.map Prod.fst).Nodup)
    (hnotsupplied : ∀ a ∈ node.attrs, a.name ≠ an) :
    findA (fullAttrMap node (registry node.op_type
      (domainVersionOf func node.domain) node.domain)) an = some dflt ∧
    FunctionExpandHelper registry node func g nodePfx addr =
      .ok { g with node := g.node ++ func.node.map (instantiateNode
        (nodeNameOf node func nodePfx addr) (ioZip node func)
        (fullAttrMap node (registry node.op_type
          (domainVersionOf func node.domain) node.domain))) } ∧
    ∀ bn ∈ func.node, ∀ a ∈ bn.attrs, a.refAttrName = some an →
      ({ dflt with name := a.name }) ∈
        (instantiateNode (nodeNameOf node func nodePfx addr)
          (ioZip node func)
          (fullAttrMap node (registry node.op_type
            (domainVersionOf func node.domain) node.domain)) bn).attrs := by
  have hbase : containsA (attrMapOfNode node) an = false := by
    rw [containsA_eq_false_iff, attrMapOfNode_eq_map]
    intro p hp
    rcases List.mem_map.mp hp with ⟨a, ha, hpa⟩
    rw [← hpa]
    exact hnotsupplied a ha
  have hfind : findA (fullAttrMap node (registry node.op_type
      (domainVersionOf func node.domain) node.domain)) an = some dflt := by
    unfold fullAttrMap addSchemaDefaults
    exact findA_defaults_fold an dflt _ _ hdecl hkeys hbase
  refine ⟨hfind, FunctionExpandHelper_ok registry node func g nodePfx addr
    hin hout hdv, ?_⟩
  intro bn _ a ha href
  rw [instantiateNode]
  simp only
  refine List.mem_filterMap.mpr ⟨a, ha, ?_⟩
  simp only [href, hfind, Option.map_some']

/-- A schema declaring attribute `beta` with integer default 7. -/
def exSchemaBeta : OpSchema :=
  ⟨[("beta", { name := "beta", refAttrName := none,
               value := AttrValue.intVal 7 })]⟩

/-- A registry resolving every lookup to `exSchemaBeta`. -/
def exRegistryBeta : String → Int → String → OpSchema := fun _ _ _ =>
  exSchemaBeta

/-- A body record referencing the function-level attribute `beta` under
its own attribute name `gamma`. -/
def exBetaBody : NodeProto :=
  { name := none, op_type := "Identity", domain := "", input := ["X"],
    output := ["t"],
    attrs := [{ name := "gamma", refAttrName := some "beta",
                value := AttrValue.noneVal }] }

/-- `exFunc` with `exBetaBody` as its body. -/
def exFuncBeta : FunctionProto := { exFunc with node := [exBetaBody] }

/-- Concrete run of `C5_schema_default_inserted`: the call site supplies
no attributes, the schema default 7 for `beta` lands in the resolved
mapping and the instantiated record carries `gamma := 7`. -/
theorem C5_schema_default_inserted_witness :
    findA (fullAttrMap exNode1 (exRegistryBeta "F" 14 "")) "beta" =
      some { name := "beta", refAttrName := none,
             value := AttrValue.intVal 7 } ∧
    ({ name := "gamma", refAttrName := none,
       value := AttrValue.intVal 7 } : AttributeProto) ∈
      (instantiateNode (nodeNameOf exNode1 exFuncBeta "" "p")
        (ioZip exNode1 exFuncBeta)
        (fullAttrMap exNode1 (exRegistryBeta "F" 14 "")) exBetaBody).attrs := by
  have h := C5_schema_default_inserted exRegistryBeta exNode1 exFuncBeta
    exGraph "" "p" "beta"
    { name := "beta", refAttrName := none, value := AttrValue.intVal 7 }
    (by decide) (by decide) (by decide) (by decide) (by decide) (by decide)
  exact ⟨h.1, h.2.2 exBetaBody (by decide)
    { name := "gamma", refAttrName := some "beta",
      value := AttrValue.noneVal } (by decide) (by decide)⟩

/-! ### Claim C9: malformed constant raw data in the axes adapter -/

/-- C9: when a `Constant` node's int64 list is empty, an empty raw
encoding or one whose byte size is not a whole multiple of 8 makes the
extraction fail with the fatal malformed-constant-data assertion;
otherwise the raw bytes are reinterpreted as int64 values (reading
`size_from_dim(0)` elements) for the axes attribute. -/
theorem C9_axes_raw_data (t : TensorProto) (hempty : t.int64s = []) :
    ((t.raw = [] ∨ t.raw.length % 8 ≠ 0) →
      constantAxesExtract t =
        .error "Raw Data must be non-empty and size must be a multiple of 8") ∧
    (t.raw ≠ [] → t.raw.length % 8 = 0 →
      constantAxesExtract t =
        .ok ((decodeInt64LE t.raw).take t.sizeFromDim0)) := by
  constructor
  · intro hbad
    have h2 : (!t.raw.isEmpty && t.raw.length % 8 == 0) = false := by
      rcases hbad with hb | hb
      · simp [hb]
      · simp [hb]
    simp [constantAxesExtract, hempty, h2]
  · intro hne hmod
    have h2 : (!t.raw.isEmpty && t.raw.length % 8 == 0) = true := by
      simp [List.isEmpty_iff, hne, hmod]
    simp [constantAxesExtract, hempty, h2]

/-- Eight little-endian bytes encoding the int64 value 1. -/
def exAxesOne : TensorProto :=
  { name := "axes", dims := [1], int64s := [],
    raw := [1, 0, 0, 0, 0, 0, 0, 0] }

/-- Eight `255` bytes: the int64 value -1. -/
def exAxesMinusOne : TensorProto :=
  { name := "axes", dims := [1], int64s := [],
    raw := [255, 255, 255, 255, 255, 255, 255, 255] }

/-- A three-byte raw payload: not a whole multiple of 8. -/
def exAxesBad : TensorProto :=
  { name := "axes", dims := [1], int64s := [], raw := [1, 2, 3] }

/-- Concrete runs of `C9_axes_raw_data`: bytes for 1 decode to axes
`[1]`, eight `255` bytes decode to `[-1]`, and a three-byte payload
trips the assertion. -/
theorem C9_axes_raw_data_witness :
    constantAxesExtract exAxesOne = .ok [1] ∧
    constantAxesExtract exAxesMinusOne = .ok [-1] ∧
    constantAxesExtract exAxesBad =
      .error "Raw Data must be non-empty and size must be a multiple of 8" := by
  refine ⟨?_, ?_, ?_⟩
  · rw [(C9_axes_raw_data exAxesOne (by decide)).2 (by decide) (by decide)]
    decide
  · rw [(C9_axes_raw_data exAxesMinusOne (by decide)).2 (by decide)
      (by decide)]
    decide
  · exact (C9_axes_raw_data exAxesBad (by decide)).1 (by decide)

/-! ### Lemmas: unique-name minting and the initializer loop -/

theorem mintCandidate_length (pfx base : String) (i : Nat) :
    (mintCandidate pfx base i).length = pfx.length + base.length + i := by
  rw [mintCandidate, String.length_append, String.length_append]
  have : (String.mk (List.replicate i '_')).length = i := by
    simp [String.length]
  omega

theorem mintUnique_not_mem (pfx base : String) (used : List String) :
    mintUnique pfx base used ∉ used := by
  rw [mintUnique]
  cases hf : ((List.range (used.length + 1)).map (mintCandidate pfx base)).find?
      (fun c => !(used.contains c)) with
  | some c =>
    have hp := List.find?_some hf
    simp only [Bool.not_eq_true', Option.getD_some]
    simpa using hp
  | none =>
    exfalso
    have hsub : ((List.range (used.length + 1)).map
        (mintCandidate pfx base)) ⊆ used := by
      intro x hx
      have := List.find?_eq_none.mp hf x hx
      simpa using this
    have hnodup : ((List.range (used.length + 1)).map
        (mintCandidate pfx base)).Nodup := by
      refine List.Nodup.map ?_ (List.nodup_range (used.length + 1))
      intro i j hij
      have hl := congrArg String.length hij
      rw [mintCandidate_length, mintCandidate_length] at hl
      omega
    have hle : ((List.range (used.length + 1)).map
        (mintCandidate pfx base)).length ≤ used.length := by
      calc ((List.range (used.length + 1)).map (mintCandidate pfx base)).length
          = ((List.range (used.length + 1)).map
              (mintCandidate pfx base)).toFinset.card :=
            (List.toFinset_card_of_nodup hnodup).symm
        _ ≤ used.toFinset.card := Finset.card_le_card (fun x hx => by
            rw [List.mem_toFinset] at hx ⊢
            exact hsub hx)
        _ ≤ used.length := List.toFinset_card_le used
    simp only [List.length_map, List.length_range] at hle
    omega

theorem addConstants_spec (ts : List TensorProto) :
    ∀ (r : Renamer) (fb : FunctionBuilder), ∃ names : List String,
    names.length = ts.length ∧
    (addConstants r fb ts).1.pfx = r.pfx ∧
    (addConstants r fb ts).1.bindings =
      r.bindings ++ List.zipWith (fun t n => (t.name, n)) ts names ∧
    (addConstants r fb ts).2.funProto = { fb.funProto with
      node := fb.funProto.node ++ List.zipWith constNode names ts } ∧
    ∀ j : Nat, ∀ hj : j < names.length,
      names.get ⟨j, hj⟩ ∉ namesOfNodes (fb.funProto.node ++
        List.zipWith constNode (names.take j) (ts.take j)) := by
  induction ts with
  | nil =>
    intro r fb
    refine ⟨[], rfl, rfl, by simp [addConstants], by simp [addConstants], ?_⟩
    intro j hj
    simp at hj
  | cons t ts2 ih =>
    intro r fb
    rcases ih (r.bindToUniqueName (usedNames fb.funProto) t.name).2
      (fb.addNode (constNode
        (r.bindToUniqueName (usedNames fb.funProto) t.name).1 t))
      with ⟨names2, hlen, hpfx, hbind, hfun, hfresh⟩
    have hstep : addConstants r fb (t :: ts2) =
        addConstants (r.bindToUniqueName (usedNames fb.funProto) t.name).2
          (fb.addNode (constNode
            (r.bindToUniqueName (usedNames fb.funProto) t.name).1 t)) ts2 :=
      rfl
    refine ⟨(r.bindToUniqueName (usedNames fb.funProto) t.name).1 :: names2,
      by simp [hlen], ?_, ?_, ?_, ?_⟩
    · rw [hstep, hpfx]
      rfl
    · rw [hstep, hbind]
      simp [Renamer.bindToUniqueName, insertA]
    · rw [hstep, hfun]
      simp [FunctionBuilder.addNode]
    · intro j hj
      cases j with
      | zero =>
        simpa [Renamer.bindToUniqueName, usedNames] using
          mintUnique_not_mem r.pfx t.name (usedNames fb.funProto)
      | succ j2 =>
        have hj2 : j2 < names2.length := by
          simpa using hj
        have hx := hfresh j2 hj2
        simpa [FunctionBuilder.addNode, List.append_assoc] using hx

/-! ### Claim C7: initializer hoisting in `AddInlinedCall` -/

/-- C7: splicing a graph emits, for each initializer in order, exactly
one constant-producing record whose single output is a freshly minted
name (avoiding every name already emitted up to that point) bound to the
initializer's original name in the renaming scope; all these constants
precede the graph's body records, which follow renamed in their original
document order. -/
theorem C7_initializer_constants (fb : FunctionBuilder) (outs : List String)
    (graph : GraphProto) (ins : List String) (pfx : String) :
    ∃ names : List String,
    names.length = graph.initializer.length ∧
    (fb.AddInlinedCall outs graph ins pfx).funProto.node =
      fb.funProto.node ++
        List.zipWith constNode names graph.initializer ++
        graph.node.map
          ((addConstants (spliceInitRenamer graph ins outs pfx) fb
            graph.initializer).1.renameNode) ∧
    ∀ j : Nat, ∀ hj : j < names.length, ∀ hj2 : j < graph.initializer.length,
      ((graph.initializer.get ⟨j, hj2⟩).name, names.get ⟨j, hj⟩) ∈
        (addConstants (spliceInitRenamer graph ins outs pfx) fb
          graph.initializer).1.bindings ∧
      names.get ⟨j, hj⟩ ∉ namesOfNodes (fb.funProto.node ++
        List.zipWith constNode (names.take j) (graph.initializer.take j)) := by
  rcases addConstants_spec graph.initializer
    (spliceInitRenamer graph ins outs pfx) fb with
    ⟨names, hlen, hpfx, hbind, hfun, hfresh⟩
  refine ⟨names, hlen, ?_, ?_⟩
  · have hACall : (fb.AddInlinedCall outs graph ins pfx).funProto.node =
        (addConstants (spliceInitRenamer graph ins outs pfx) fb
          graph.initializer).2.funProto.node ++
        graph.node.map
          ((addConstants (spliceInitRenamer graph ins outs pfx) fb
            graph.initializer).1.renameNode) := rfl
    rw [hACall, hfun]
  · intro j hj hj2
    constructor
    · rw [hbind]
      refine List.mem_append_right _ ?_
      have hjz : j < (List.zipWith (fun t n => (t.name, n))
          graph.initializer names).length := by
        rw [List.length_zipWith]
        omega
      have hv : (List.zipWith (fun t n => (t.name, n))
          graph.initializer names)[j] =
          ((graph.initializer.get ⟨j, hj2⟩).name, names.get ⟨j, hj⟩) := by
        simp [List.getElem_zipWith]
      rw [← hv]
      exact List.getElem_mem hjz
    · exact hfresh j hj

/-- The initializer tensor of the splice example. -/
def exW : TensorProto := { name := "W", dims := [1], int64s := [5], raw := [] }

/-- The body record of the splice example. -/
def exMatMul : NodeProto :=
  { name := none, op_type := "MatMul", domain := "", input := ["X", "W"],
    output := ["Y"], attrs := [] }

/-- A standalone graph with declared input `X`, output `Y`, one
initializer `W` and body `MatMul(X, W) -> Y`. -/
def exSpliceGraph : GraphProto :=
  { name := "sg", node := [exMatMul], input := [⟨"X"⟩], output := [⟨"Y"⟩],
    initializer := [exW] }

/-- An empty function under construction. -/
def exFB : FunctionBuilder :=
  ⟨{ name := "FB", input := [], output := [], node := [],
     opset_import := [] }⟩

/-- Concrete run of `C7_initializer_constants`, plus the fully evaluated
splice: the constant for `W` is emitted first under the fresh name
`p1_W`, then `MatMul(input0, p1_W) -> output0`. -/
theorem C7_initializer_constants_witness :
    (∃ names : List String,
      names.length = exSpliceGraph.initializer.length ∧
      (exFB.AddInlinedCall ["output0"] exSpliceGraph ["input0"]
        "p1_").funProto.node =
        exFB.funProto.node ++
          List.zipWith constNode names exSpliceGraph.initializer ++
          exSpliceGraph.node.map
            ((addConstants (spliceInitRenamer exSpliceGraph ["input0"]
              ["output0"] "p1_") exFB exSpliceGraph.initializer).1.renameNode) ∧
      ∀ j : Nat, ∀ hj : j < names.length,
        ∀ hj2 : j < exSpliceGraph.initializer.length,
        ((exSpliceGraph.initializer.get ⟨j, hj2⟩).name, names.get ⟨j, hj⟩) ∈
          (addConstants (spliceInitRenamer exSpliceGraph ["input0"]
            ["output0"] "p1_") exFB exSpliceGraph.initializer).1.bindings ∧
        names.get ⟨j, hj⟩ ∉ namesOfNodes (exFB.funProto.node ++
          List.zipWith constNode (names.take j)
            (exSpliceGraph.initializer.take j))) ∧
    (exFB.AddInlinedCall ["output0"] exSpliceGraph ["input0"]
      "p1_").funProto.node =
      [constNode "p1_W" exW,
        { exMatMul with input := ["input0", "p1_W"], output := ["output0"] }] :=
  ⟨C7_initializer_constants exFB ["output0"] exSpliceGraph ["input0"] "p1_",
   by decide⟩

/-! ### Claim C8: the only effect is appending to the destination -/

/-- C8: a successful expansion returns the destination graph with every
non-node field unchanged and its record list equal to the old list with
new records appended; a splice likewise returns the function under
construction with every other field unchanged and only new records
appended.  (Call-site node, function definition and source graph are
values here, so their immutability is inherent to the embedding of the
C++ const-reference contract.) -/
theorem C8_append_only_frame (registry : String → Int → String → OpSchema)
    (node : NodeProto) (func : FunctionProto) (g : GraphProto)
    (nodePfx addr : String) (g1 : GraphProto) (fb : FunctionBuilder)
    (outs : List String) (graph : GraphProto) (ins : List String)
    (pfx : String) :
    (FunctionExpandHelper registry node func g nodePfx addr = .ok g1 →
      g1.name = g.name ∧ g1.input = g.input ∧ g1.output = g.output ∧
      g1.initializer = g.initializer ∧ ∃ ns, g1.node = g.node ++ ns) ∧
    ((fb.AddInlinedCall outs graph ins pfx).funProto.name =
        fb.funProto.name ∧
      (fb.AddInlinedCall outs graph ins pfx).funProto.input =
        fb.funProto.input ∧
      (fb.AddInlinedCall outs graph ins pfx).funProto.output =
        fb.funProto.output ∧
      (fb.AddInlinedCall outs graph ins pfx).funProto.opset_import =
        fb.funProto.opset_import ∧
      ∃ ns, (fb.AddInlinedCall outs graph ins pfx).funProto.node =
        fb.funProto.node ++ ns) := by
  constructor
  · intro h
    by_cases hin : node.input.length ≤ func.input.length
    · by_cases hout : node.output.length ≤ func.output.length
      · by_cases hdv : domainVersionOf func node.domain = -1
        · rw [FunctionExpandHelper_err_opset registry node func g nodePfx addr
            hin hout hdv] at h
          simp at h
        · rw [FunctionExpandHelper_ok registry node func g nodePfx addr
            hin hout hdv] at h
          have hg := Except.ok.inj h
          subst hg
          exact ⟨rfl, rfl, rfl, rfl, _, rfl⟩
      · rw [FunctionExpandHelper_err_output registry node func g nodePfx addr
          hin (by omega)] at h
        simp at h
    · rw [FunctionExpandHelper_err_input registry node func g nodePfx addr
        (by omega)] at h
      simp at h
  · rcases addConstants_spec graph.initializer
      (spliceInitRenamer graph ins outs pfx) fb with
      ⟨names, hlen, hpfx, hbind, hfun, hfresh⟩
    have hname : (fb.AddInlinedCall outs graph ins pfx).funProto.name =
        (addConstants (spliceInitRenamer graph ins outs pfx) fb
          graph.initializer).2.funProto.name := rfl
    have hinp : (fb.AddInlinedCall outs graph ins pfx).funProto.input =
        (addConstants (spliceInitRenamer graph ins outs pfx) fb
          graph.initializer).2.funProto.input := rfl
    have houtp : (fb.AddInlinedCall outs graph ins pfx).funProto.output =
        (addConstants (spliceInitRenamer graph ins outs pfx) fb
          graph.initializer).2.funProto.output := rfl
    have hop : (fb.AddInlinedCall outs graph ins pfx).funProto.opset_import =
        (addConstants (spliceInitRenamer graph ins outs pfx) fb
          graph.initializer).2.funProto.opset_import := rfl
    have hnode : (fb.AddInlinedCall outs graph ins pfx).funProto.node =
        (addConstants (spliceInitRenamer graph ins outs pfx) fb
          graph.initializer).2.funProto.node ++
        graph.node.map
          ((addConstants (spliceInitRenamer graph ins outs pfx) fb
            graph.initializer).1.renameNode) := rfl
    refine ⟨?_, ?_, ?_, ?_,
      ⟨List.zipWith constNode names graph.initializer ++ graph.node.map
        ((addConstants (spliceInitRenamer graph ins outs pfx) fb
          graph.initializer).1.renameNode), ?_⟩⟩
    · rw [hname, hfun]
    · rw [hinp, hfun]
    · rw [houtp, hfun]
    · rw [hop, hfun]
    · rw [hnode, hfun]
      simp [List.append_assoc]

/-- Concrete run of `C8_append_only_frame`: the expansion of `exNode1`
only appends to `exGraph`, and the splice into `exFB` only appends to
its function under construction. -/
theorem C8_append_only_frame_witness :
    ({ exGraph with node := [exExpanded1] } : GraphProto).name =
        exGraph.name ∧
    ({ exGraph with node := [exExpanded1] } : GraphProto).initializer =
        exGraph.initializer ∧
    (∃ ns, ({ exGraph with node := [exExpanded1] } : GraphProto).node =
      exGraph.node ++ ns) ∧
    (exFB.AddInlinedCall ["output0"] exSpliceGraph ["input0"]
        "p1_").funProto.name = exFB.funProto.name ∧
    ∃ ns, (exFB.AddInlinedCall ["output0"] exSpliceGraph ["input0"]
        "p1_").funProto.node = exFB.funProto.node ++ ns := by
  have h := C8_append_only_frame exRegistry exNode1 exFunc exGraph "" "p"
    { exGraph with node := [exExpanded1] } exFB ["output0"] exSpliceGraph
    ["input0"] "p1_"
  have h1 := h.1 (by decide)
  exact ⟨h1.1, h1.2.2.2.1, h1.2.2.2.2, h.2.1, h.2.2.2.2.2⟩
